import Mathlib

/-!
Verification of the language-association core of this repository:
`crates/db_schema/src/impls/actor_language.rs` (the three association
managers `SiteLanguage`, `CommunityLanguage`, `LocalUserLanguage`, the
cascade `limit_languages`, the resolver `update_languages`, and the
validation predicate `is_allowed_community_language`) and
`crates/db_views/src/site_view.rs` (`SiteView::read_local`).

The database is embedded shallowly as a record of association tables
(lists of (owner id, language id) pairs), the language catalog, the
community table (with its `local` flag), and the site/site_aggregates
tables used by `SiteView::read_local`.  Each diesel transaction body
becomes a function `DB → Except DbError DB`; rollback on error is made
explicit by `runTransaction`.
-/

namespace Lemmy

abbrev LanguageId := Nat
abbrev SiteId := Nat
abbrev CommunityId := Nat
abbrev LocalUserId := Nat

/-- Catalog row (source type `source::language::Language`; only the fields
this core touches are carried). -/
structure Language where
  id : LanguageId
  code : String
deriving DecidableEq, Repr

/-- Community entity; `isLocal` embeds the source column `local`
(`community.filter(local.eq(true))`). -/
structure Community where
  id : CommunityId
  isLocal : Bool
deriving DecidableEq, Repr

/-- Modelled from the spec: the `Site` owner entity is outside this core
(spec section 3 treats owners as opaque apart from their identifier); the
`private_key` field is the one `SiteView::read_local` clears. -/
structure Site where
  id : SiteId
  private_key : Option String
deriving DecidableEq, Repr

/-- Aggregate row joined by `SiteView::read_local`. -/
structure SiteAggregates where
  site_id : SiteId
deriving DecidableEq, Repr

/-- Storage-level failure outcomes of the diesel calls made by this core.
Modelled from the spec: each association table has a composite uniqueness
constraint on (owner id, language id) and a foreign key from language id
into the catalog (spec section 6); `notFound` is the outcome of `first` on
an empty result. -/
inductive DbError where
  | uniqueViolation
  | foreignKeyViolation
  | notFound
deriving DecidableEq, Repr

/-- Domain-level error type (source `lemmy_utils::error::LemmyError`). -/
structure LemmyError where
  message : String
deriving DecidableEq, Repr

def LemmyError.from_message (s : String) : LemmyError := ⟨s⟩

/-- The relational store: the three association tables, the catalog, and
the entity tables this core reads. -/
structure DB where
  languages : List Language
  site : List Site
  site_aggregates : List SiteAggregates
  site_language : List (SiteId × LanguageId)
  community_language : List (CommunityId × LanguageId)
  local_user_language : List (LocalUserId × LanguageId)
  community : List Community
deriving DecidableEq, Repr

def DB.languageIds (db : DB) : List LanguageId :=
  db.languages.map (fun l => l.id)

/-- Modelled from the spec: one `insert_into(table).values((owner, lang))`
against an association table fails with a foreign-key violation when the
language id is not in the catalog and with a uniqueness violation when the
(owner, language) row already exists (spec section 6); on success the row
is appended. -/
def insertRow (catalog : List LanguageId) (rows : List (Nat × LanguageId))
    (r : Nat × LanguageId) : Except DbError (List (Nat × LanguageId)) :=
  if r.2 ∈ catalog then
    if r ∈ rows then .error .uniqueViolation
    else .ok (rows ++ [r])
  else .error .foreignKeyViolation

/-- The `for l in lang_ids { insert_into(..) }` loop shared by the three
`update` functions; the first failing insert aborts. -/
def insertRows (catalog : List LanguageId) (rows : List (Nat × LanguageId)) :
    List (Nat × LanguageId) → Except DbError (List (Nat × LanguageId))
  | [] => .ok rows
  | r :: rs =>
    match insertRow catalog rows r with
    | .ok rows1 => insertRows catalog rows1 rs
    | .error e => .error e

/-- Source `update_languages`: if no language id is given, resolve to all
languages of the catalog. -/
def update_languages (db : DB) (language_ids : List LanguageId) :
    List LanguageId :=
  if language_ids.isEmpty then db.languages.map (fun l => l.id)
  else language_ids

/-- Source `LocalUserLanguage::read`: the user's association rows,
projected to language ids. -/
def LocalUserLanguage.read (db : DB) (for_local_user_id : LocalUserId) :
    List LanguageId :=
  (db.local_user_language.filter (fun r => r.1 == for_local_user_id)).map
    (fun r => r.2)

/-- Source `SiteLanguage::read`. -/
def SiteLanguage.read (db : DB) (for_site_id : SiteId) : List LanguageId :=
  (db.site_language.filter (fun r => r.1 == for_site_id)).map (fun r => r.2)

/-- Source `CommunityLanguage::read`. -/
def CommunityLanguage.read (db : DB) (for_community_id : CommunityId) :
    List LanguageId :=
  (db.community_language.filter (fun r => r.1 == for_community_id)).map
    (fun r => r.2)

/-- Source `LocalUserLanguage::update`: inside one transaction, delete the
user's rows, resolve the effective set, insert one row per resolved id. -/
def LocalUserLanguage.update (db : DB) (language_ids : List LanguageId)
    (for_local_user_id : LocalUserId) : Except DbError DB :=
  match insertRows db.languageIds
      (db.local_user_language.filter (fun r => !(r.1 == for_local_user_id)))
      ((update_languages db language_ids).map
        (fun l => (for_local_user_id, l))) with
  | .ok rows1 => .ok { db with local_user_language := rows1 }
  | .error e => .error e

/-- Source `CommunityLanguage::limit_languages`: for every community with
`local = true`, delete its association rows whose language id is not in
`site_language_ids` (the diesel filter `language_id.ne(all(ids))`). -/
def CommunityLanguage.limit_languages (db : DB)
    (site_language_ids : List LanguageId) : Except DbError DB :=
  .ok { db with community_language :=
    ((db.community.filter (fun c => c.isLocal)).foldl
      (fun rows c => rows.filter
        (fun r => !(r.1 == c.id && !(site_language_ids.contains r.2))))
      db.community_language) }

/-- Source `SiteLanguage::update`: inside one transaction, delete the
site's rows, resolve, insert, then cascade via `limit_languages`. -/
def SiteLanguage.update (db : DB) (language_ids : List LanguageId)
    (for_site_id : SiteId) : Except DbError DB :=
  match insertRows db.languageIds
      (db.site_language.filter (fun r => !(r.1 == for_site_id)))
      ((update_languages db language_ids).map (fun l => (for_site_id, l))) with
  | .ok rows1 =>
    CommunityLanguage.limit_languages { db with site_language := rows1 }
      (update_languages db language_ids)
  | .error e => .error e

/-- Source `CommunityLanguage::update`: delete the community's rows,
resolve, insert — with no subset check against the site's languages. -/
def CommunityLanguage.update (db : DB) (language_ids : List LanguageId)
    (for_community_id : CommunityId) : Except DbError DB :=
  match insertRows db.languageIds
      (db.community_language.filter (fun r => !(r.1 == for_community_id)))
      ((update_languages db language_ids).map
        (fun l => (for_community_id, l))) with
  | .ok rows1 => .ok { db with community_language := rows1 }
  | .error e => .error e

/-- Source `CommunityLanguage::is_allowed_community_language`: succeeds
iff an association row (community, language) exists, otherwise fails with
the `language_not_allowed` message. -/
def CommunityLanguage.is_allowed_community_language (db : DB)
    (for_language_id : LanguageId) (for_community_id : CommunityId) :
    Except LemmyError Unit :=
  if db.community_language.any
      (fun r => r.2 == for_language_id && r.1 == for_community_id) then
    .ok ()
  else
    .error (LemmyError.from_message "language_not_allowed")

/-- Observable state after `conn.build_transaction().run(..)`: the new
state on commit, the original state on rollback. -/
def runTransaction (db : DB) : Except DbError DB → DB
  | .ok db1 => db1
  | .error _ => db

/-- The cross-level subset invariant I2 of the spec: every local
community's association set is contained in the given site's. -/
def subsetInv (db : DB) (sid : SiteId) : Prop :=
  ∀ c ∈ db.community, c.isLocal = true →
    ∀ l ∈ CommunityLanguage.read db c.id, l ∈ SiteLanguage.read db sid

instance subsetInvDecidable (db : DB) (sid : SiteId) :
    Decidable (subsetInv db sid) :=
  inferInstanceAs (Decidable (∀ c ∈ db.community, c.isLocal = true →
    ∀ l ∈ CommunityLanguage.read db c.id, l ∈ SiteLanguage.read db sid))

/-- View returned by `SiteView::read_local`. -/
structure SiteView where
  site : Site
  counts : SiteAggregates
  languages : List Language
deriving DecidableEq, Repr

/-- Source `SiteView::read_local`: join site with site_aggregates, order
by site id and take the first pair, load that site's languages, blank the
private key, and return the view. -/
def SiteView.read_local (db : DB) : Except DbError SiteView :=
  match (db.site.flatMap (fun s =>
      (db.site_aggregates.filter (fun a => a.site_id == s.id)).map
        (fun a => (s, a)))).foldl
      (fun acc p => match acc with
        | none => some p
        | some q => if p.1.id < q.1.id then some p else some q) none with
  | none => .error .notFound
  | some (site0, counts0) =>
    .ok { site := { site0 with private_key := none }
          counts := counts0
          languages := (db.languages.filter
            (fun l => db.site_language.contains (site0.id, l.id))) }

/-- Concrete store used to evaluate the definitions: a catalog of three
languages, one site with languages {1, 2}, a local community 5 with
{1, 2}, a non-local community 6 with {3}, and a user 9 with {1}. -/
def dbW : DB where
  languages := [⟨1, "en"⟩, ⟨2, "fr"⟩, ⟨3, "ru"⟩]
  site := [⟨0, some "sk"⟩]
  site_aggregates := [⟨0⟩]
  site_language := [(0, 1), (0, 2)]
  community_language := [(5, 1), (5, 2), (6, 3)]
  local_user_language := [(9, 1)]
  community := [⟨5, true⟩, ⟨6, false⟩]

def dbSiteUpdW : DB := runTransaction dbW (SiteLanguage.update dbW [1] 0)

def dbLimW : DB :=
  runTransaction dbW (CommunityLanguage.limit_languages dbW [1])

def dbUserEmptyW : DB :=
  runTransaction dbW (LocalUserLanguage.update dbW [] 9)

def dbCommUpdW : DB :=
  runTransaction dbW (CommunityLanguage.update dbW [3] 5)

def dbReplA : DB := runTransaction dbW (CommunityLanguage.update dbW [1, 2] 5)

def dbReplB : DB :=
  runTransaction dbReplA (CommunityLanguage.update dbReplA [3] 5)

/-- Concrete store whose local community 5 holds only language 1, while
the catalog also has language 2. -/
def dbN : DB where
  languages := [⟨1, "en"⟩, ⟨2, "fr"⟩]
  site := [⟨0, none⟩]
  site_aggregates := [⟨0⟩]
  site_language := [(0, 1)]
  community_language := [(5, 1)]
  local_user_language := []
  community := [⟨5, true⟩]

def dbNPost : DB := runTransaction dbN (SiteLanguage.update dbN [2] 0)

/-- The view `SiteView::read_local` produces on `dbW`. -/
def siteViewW : SiteView where
  site := ⟨0, none⟩
  counts := ⟨0⟩
  languages := [⟨1, "en"⟩, ⟨2, "fr"⟩]

/-- A successful insert of one row appends it. -/
theorem insertRow_ok_eq (catalog : List LanguageId)
    (rows rows1 : List (Nat × LanguageId)) (r : Nat × LanguageId)
    (h : insertRow catalog rows r = .ok rows1) : rows1 = rows ++ [r] := by
  unfold insertRow at h
  split at h
  · split at h
    · exact Except.noConfusion h
    · exact (Except.ok.injEq _ _).mp h |>.symm
  · exact Except.noConfusion h

/-- A successful insert loop appends exactly the requested rows. -/
theorem insertRows_ok_eq (catalog : List LanguageId) :
    ∀ (ps rows rows1 : List (Nat × LanguageId)),
      insertRows catalog rows ps = .ok rows1 → rows1 = rows ++ ps := by
  intro ps
  induction ps with
  | nil =>
    intro rows rows1 h
    simp [insertRows] at h
    simp [h]
  | cons r rs ih =>
    intro rows rows1 h
    rw [insertRows] at h
    cases hi : insertRow catalog rows r with
    | ok rows2 =>
      rw [hi] at h
      have h2 := ih _ _ h
      rw [h2, insertRow_ok_eq catalog rows rows2 r hi, List.append_assoc]
      rfl
    | error e =>
      rw [hi] at h
      exact Except.noConfusion h

/-- Rows of other owners never match the owner filter of a read. -/
theorem filter_other_owner_nil (o : Nat) (rows : List (Nat × Nat)) :
    (rows.filter (fun r => !(r.1 == o))).filter (fun r => r.1 == o) = [] := by
  induction rows with
  | nil => rfl
  | cons a l ih =>
    by_cases h : a.1 = o
    · simp [List.filter_cons, h, ih]
    · simp [List.filter_cons, h, ih]

/-- Freshly inserted rows of the owner read back as the inserted ids. -/
theorem filter_map_own (o : Nat) (ps : List Nat) :
    ((ps.map (fun l => (o, l))).filter (fun r => r.1 == o)).map
      (fun r => r.2) = ps := by
  induction ps with
  | nil => rfl
  | cons p ps ih => simp [List.filter_cons, ih]

/-- Reading an owner's rows after delete-then-insert yields the inserted
ids. -/
theorem read_replace (o : Nat) (rows : List (Nat × Nat)) (ps : List Nat) :
    (((rows.filter (fun r => !(r.1 == o))) ++ ps.map (fun l => (o, l))).filter
        (fun r => r.1 == o)).map (fun r => r.2) = ps := by
  rw [List.filter_append, filter_other_owner_nil o rows, List.nil_append]
  exact filter_map_own o ps

/-- The per-community delete loop of `limit_languages` equals one filter
by the conjunction over all local communities. -/
theorem foldl_filter_all (L : List LanguageId) (locals : List Community) :
    ∀ rows : List (CommunityId × LanguageId),
      locals.foldl (fun rs c => rs.filter
          (fun r => !(r.1 == c.id && !(L.contains r.2)))) rows
        = rows.filter (fun r => locals.all
            (fun c => !(r.1 == c.id && !(L.contains r.2)))) := by
  induction locals with
  | nil => intro rows; simp
  | cons c cs ih =>
    intro rows
    rw [List.foldl_cons, ih, List.filter_filter]
    apply List.filter_congr
    intro r hr
    simp [List.all_cons, Bool.and_comm]

/-- Projection to language ids commutes with a filter on the id. -/
theorem map_filter_snd (q : LanguageId → Bool) (xs : List (Nat × LanguageId)) :
    (xs.filter (fun r => q r.2)).map (fun r => r.2)
      = (xs.map (fun r => r.2)).filter q := by
  induction xs with
  | nil => rfl
  | cons a l ih =>
    by_cases h : q a.2
    · simp [List.filter_cons, h, ih]
    · simp [List.filter_cons, h, ih]

/-- Two filters commute. -/
theorem filter_swap {α : Type} (p q : α → Bool) (l : List α) :
    (l.filter p).filter q = (l.filter q).filter p := by
  induction l with
  | nil => rfl
  | cons a t ih =>
    by_cases hp : p a <;> by_cases hq : q a <;>
      simp [List.filter_cons, hp, hq, ih]

/-- State after a successful `LocalUserLanguage::update`: the user's rows
are replaced by the resolved ids, nothing else changes. -/
theorem user_update_ok_eq (db : DB) (ids : List LanguageId)
    (u : LocalUserId) (db1 : DB)
    (h : LocalUserLanguage.update db ids u = .ok db1) :
    db1 = { db with local_user_language :=
      (db.local_user_language.filter (fun r => !(r.1 == u))) ++
        (update_languages db ids).map (fun l => (u, l)) } := by
  unfold LocalUserLanguage.update at h
  split at h
  next rows1 hi =>
    have h2 := insertRows_ok_eq _ _ _ _ hi
    injection h with h3
    rw [← h3, h2]
  next e hi => exact Except.noConfusion h

/-- State after a successful `CommunityLanguage::update`. -/
theorem community_update_ok_eq (db : DB) (ids : List LanguageId)
    (cid : CommunityId) (db1 : DB)
    (h : CommunityLanguage.update db ids cid = .ok db1) :
    db1 = { db with community_language :=
      (db.community_language.filter (fun r => !(r.1 == cid))) ++
        (update_languages db ids).map (fun l => (cid, l)) } := by
  unfold CommunityLanguage.update at h
  split at h
  next rows1 hi =>
    have h2 := insertRows_ok_eq _ _ _ _ hi
    injection h with h3
    rw [← h3, h2]
  next e hi => exact Except.noConfusion h

/-- State after a successful `SiteLanguage::update`: the site's rows are
replaced by the resolved ids and every local community's rows are
filtered down to that set. -/
theorem site_update_ok_eq (db : DB) (ids : List LanguageId)
    (sid : SiteId) (db1 : DB)
    (h : SiteLanguage.update db ids sid = .ok db1) :
    db1 = { db with
      site_language :=
        (db.site_language.filter (fun r => !(r.1 == sid))) ++
          (update_languages db ids).map (fun l => (sid, l)),
      community_language :=
        ((db.community.filter (fun c => c.isLocal)).foldl
          (fun rows c => rows.filter
            (fun r => !(r.1 == c.id &&
              !((update_languages db ids).contains r.2))))
          db.community_language) } := by
  unfold SiteLanguage.update at h
  split at h
  next rows1 hi =>
    have h2 := insertRows_ok_eq _ _ _ _ hi
    unfold CommunityLanguage.limit_languages at h
    injection h with h3
    rw [← h3, h2]
  next e hi => exact Except.noConfusion h

/-- State after `limit_languages` (which always commits). -/
theorem limit_languages_ok_eq (db : DB)
    (L : List LanguageId) (db1 : DB)
    (h : CommunityLanguage.limit_languages db L = .ok db1) :
    db1 = { db with community_language :=
      db.community_language.filter (fun r =>
        (db.community.filter (fun c => c.isLocal)).all
          (fun c => !(r.1 == c.id && !(L.contains r.2)))) } := by
  unfold CommunityLanguage.limit_languages at h
  injection h with h3
  rw [← h3, foldl_filter_all]

/-- Reading the updated user after a successful update returns the
resolved set. -/
theorem user_update_ok_read (db db1 : DB)
    (ids : List LanguageId) (u : LocalUserId)
    (h : LocalUserLanguage.update db ids u = .ok db1) :
    LocalUserLanguage.read db1 u = update_languages db ids := by
  rw [user_update_ok_eq db ids u db1 h]
  exact read_replace u db.local_user_language (update_languages db ids)

/-- Reading the updated community after a successful update returns the
resolved set. -/
theorem community_update_ok_read (db db1 : DB)
    (ids : List LanguageId) (cid : CommunityId)
    (h : CommunityLanguage.update db ids cid = .ok db1) :
    CommunityLanguage.read db1 cid = update_languages db ids := by
  rw [community_update_ok_eq db ids cid db1 h]
  exact read_replace cid db.community_language (update_languages db ids)

/-- Reading the updated site after a successful update returns the
resolved set (the cascade leaves the site table alone). -/
theorem site_update_ok_read (db db1 : DB)
    (ids : List LanguageId) (sid : SiteId)
    (h : SiteLanguage.update db ids sid = .ok db1) :
    SiteLanguage.read db1 sid = update_languages db ids := by
  rw [site_update_ok_eq db ids sid db1 h]
  exact read_replace sid db.site_language (update_languages db ids)

/-- The resolver never returns the empty set on a non-empty catalog. -/
theorem update_languages_ne_nil (db : DB) (ids : List LanguageId)
    (hcat : db.languages ≠ []) : update_languages db ids ≠ [] := by
  unfold update_languages
  split
  next => simpa using hcat
  next h => simpa using h

/-- Community table after a successful `SiteLanguage::update`, as a
single filter. -/
theorem site_update_comm_rows (db db1 : DB) (ids : List LanguageId)
    (sid : SiteId) (h : SiteLanguage.update db ids sid = .ok db1) :
    db1.community_language
      = db.community_language.filter (fun r =>
          (db.community.filter (fun c => c.isLocal)).all
            (fun c => !(r.1 == c.id &&
              !((update_languages db ids).contains r.2)))) := by
  rw [site_update_ok_eq db ids sid db1 h]
  exact foldl_filter_all _ _ _

/-- The community entity table is untouched by `SiteLanguage::update`. -/
theorem site_update_comm_entities (db db1 : DB) (ids : List LanguageId)
    (sid : SiteId) (h : SiteLanguage.update db ids sid = .ok db1) :
    db1.community = db.community := by
  rw [site_update_ok_eq db ids sid db1 h]

/-- After a successful `SiteLanguage::update`, the subset invariant I2
holds for the updated site. -/
theorem site_update_subsetInv_aux (db db1 : DB) (ids : List LanguageId)
    (sid : SiteId) (h : SiteLanguage.update db ids sid = .ok db1) :
    subsetInv db1 sid := by
  intro c hc hlocal l hml
  rw [site_update_ok_read db db1 ids sid h]
  unfold CommunityLanguage.read at hml
  rw [site_update_comm_rows db db1 ids sid h] at hml
  simp only [List.mem_map, List.mem_filter] at hml
  obtain ⟨r, ⟨⟨hrmem, hall⟩, hrc⟩, hrl⟩ := hml
  rw [site_update_comm_entities db db1 ids sid h] at hc
  have hcl : c ∈ db.community.filter (fun c => c.isLocal) :=
    List.mem_filter.mpr ⟨hc, by simp [hlocal]⟩
  have hk := List.all_eq_true.mp hall c hcl
  rw [hrc] at hk
  simp at hk
  rw [← hrl]
  exact hk

/-- Community table after `limit_languages`, as a single filter. -/
theorem limit_comm_rows (db db1 : DB) (L : List LanguageId)
    (h : CommunityLanguage.limit_languages db L = .ok db1) :
    db1.community_language
      = db.community_language.filter (fun r =>
          (db.community.filter (fun c => c.isLocal)).all
            (fun c => !(r.1 == c.id && !(L.contains r.2)))) := by
  rw [limit_languages_ok_eq db L db1 h]

/-- The community entity table is untouched by `limit_languages`. -/
theorem limit_comm_entities (db db1 : DB) (L : List LanguageId)
    (h : CommunityLanguage.limit_languages db L = .ok db1) :
    db1.community = db.community := by
  rw [limit_languages_ok_eq db L db1 h]

/-- C1: after any successful `SiteLanguage::update`, every local
community's association set read back by `CommunityLanguage::read` is
contained in the set read back by `SiteLanguage::read` for the updated
site. -/
theorem site_update_community_subset (db db1 : DB)
    (ids : List LanguageId) (sid : SiteId) (c : Community)
    (hc : c ∈ db.community) (hlocal : c.isLocal = true)
    (h : SiteLanguage.update db ids sid = .ok db1) :
    ∀ l ∈ CommunityLanguage.read db1 c.id, l ∈ SiteLanguage.read db1 sid := by
  have hinv := site_update_subsetInv_aux db db1 ids sid h
  have hco : c ∈ db1.community := by
    rw [site_update_comm_entities db db1 ids sid h]
    exact hc
  exact hinv c hco hlocal

/-- Witness for C1 on the concrete store `dbW`. -/
theorem site_update_community_subset_witness :
    (1 : LanguageId) ∈ SiteLanguage.read dbSiteUpdW 0 :=
  site_update_community_subset dbW dbSiteUpdW [1] 0 ⟨5, true⟩ (by decide)
    rfl rfl 1 (by decide)

/-- C2: the cascade `limit_languages` replaces every local community's
association set with its intersection with the site set, and never adds
a language id to any community. -/
theorem limit_languages_intersection (db db1 : DB) (L : List LanguageId)
    (h : CommunityLanguage.limit_languages db L = .ok db1) :
    (∀ c ∈ db.community, c.isLocal = true →
       CommunityLanguage.read db1 c.id
         = (CommunityLanguage.read db c.id).filter (fun l => L.contains l)) ∧
    (∀ cid : CommunityId, ∀ l ∈ CommunityLanguage.read db1 cid,
       l ∈ CommunityLanguage.read db cid) := by
  constructor
  · intro c hc hlocal
    unfold CommunityLanguage.read
    rw [limit_comm_rows db db1 L h, filter_swap]
    have hcl : c ∈ db.community.filter (fun c => c.isLocal) :=
      List.mem_filter.mpr ⟨hc, by simp [hlocal]⟩
    have hcong : (db.community_language.filter
          (fun r => r.1 == c.id)).filter
          (fun r => (db.community.filter (fun c => c.isLocal)).all
            (fun c2 => !(r.1 == c2.id && !(L.contains r.2))))
        = (db.community_language.filter (fun r => r.1 == c.id)).filter
            (fun r => L.contains r.2) := by
      apply List.filter_congr
      intro r hr
      have hrc : (r.1 == c.id) = true := by
        have := List.mem_filter.mp hr
        exact this.2
      by_cases hL : r.2 ∈ L
      · simp [List.all_eq_true, hL]
      · have h1 : ((db.community.filter (fun c => c.isLocal)).all
            (fun c2 => !(r.1 == c2.id && !(L.contains r.2)))) = false := by
          rw [List.all_eq_false]
          refine ⟨c, hcl, ?_⟩
          simp [hrc, hL]
        rw [h1]
        simp [hL]
    rw [hcong, map_filter_snd]
  · intro cid l hml
    unfold CommunityLanguage.read at hml ⊢
    rw [limit_comm_rows db db1 L h] at hml
    simp only [List.mem_map, List.mem_filter] at hml ⊢
    obtain ⟨r, ⟨⟨hrmem, _⟩, hrc⟩, hrl⟩ := hml
    exact ⟨r, ⟨hrmem, hrc⟩, hrl⟩

/-- Witness for C2 on the concrete store `dbW`: community 5 keeps
exactly its languages among the site ids `[1]`. -/
theorem limit_languages_intersection_witness :
    CommunityLanguage.read dbLimW 5
      = (CommunityLanguage.read dbW 5).filter (fun l => [1].contains l) :=
  (limit_languages_intersection dbW dbLimW [1] rfl).1 ⟨5, true⟩ (by decide)
    rfl

/-- C3: updating any owner with the empty list and reading it back
returns the full catalog id set. -/
theorem update_empty_reads_catalog (db : DB) (u : LocalUserId)
    (sid : SiteId) (cid : CommunityId) :
    (∀ db1, LocalUserLanguage.update db [] u = .ok db1 →
       LocalUserLanguage.read db1 u = db.languageIds) ∧
    (∀ db1, SiteLanguage.update db [] sid = .ok db1 →
       SiteLanguage.read db1 sid = db.languageIds) ∧
    (∀ db1, CommunityLanguage.update db [] cid = .ok db1 →
       CommunityLanguage.read db1 cid = db.languageIds) := by
  refine ⟨fun db1 h => ?_, fun db1 h => ?_, fun db1 h => ?_⟩
  · rw [user_update_ok_read db db1 [] u h]; rfl
  · rw [site_update_ok_read db db1 [] sid h]; rfl
  · rw [community_update_ok_read db db1 [] cid h]; rfl

/-- Witness for C3: the empty update on user 9 of `dbW` reads back the
whole catalog. -/
theorem update_empty_reads_catalog_witness :
    LocalUserLanguage.read dbUserEmptyW 9 = dbW.languageIds :=
  (update_empty_reads_catalog dbW 9 0 5).1 dbUserEmptyW rfl

/-- C4: two successive non-empty updates on the same owner leave exactly
the second set, for each of the three owner kinds. -/
theorem update_replace_semantics (db : DB) (A B : List LanguageId)
    (hA : A ≠ []) (hB : B ≠ []) (u : LocalUserId) (sid : SiteId)
    (cid : CommunityId) :
    (∀ db1 db2, LocalUserLanguage.update db A u = .ok db1 →
       LocalUserLanguage.update db1 B u = .ok db2 →
       LocalUserLanguage.read db2 u = B) ∧
    (∀ db1 db2, SiteLanguage.update db A sid = .ok db1 →
       SiteLanguage.update db1 B sid = .ok db2 →
       SiteLanguage.read db2 sid = B) ∧
    (∀ db1 db2, CommunityLanguage.update db A cid = .ok db1 →
       CommunityLanguage.update db1 B cid = .ok db2 →
       CommunityLanguage.read db2 cid = B) := by
  have hres : ∀ dbx : DB, update_languages dbx B = B := by
    intro dbx
    unfold update_languages
    simp [hB]
  refine ⟨fun db1 db2 h1 h2 => ?_, fun db1 db2 h1 h2 => ?_,
    fun db1 db2 h1 h2 => ?_⟩
  · rw [user_update_ok_read db1 db2 B u h2, hres]
  · rw [site_update_ok_read db1 db2 B sid h2, hres]
  · rw [community_update_ok_read db1 db2 B cid h2, hres]

/-- Witness for C4: community 5 of `dbW` updated with `[1, 2]` then
`[3]` reads back `[3]`. -/
theorem update_replace_semantics_witness :
    CommunityLanguage.read dbReplB 5 = [3] :=
  (update_replace_semantics dbW [1, 2] [3] (by decide) (by decide)
    9 0 5).2.2 dbReplA dbReplB rfl rfl

/-- C5: `is_allowed_community_language` succeeds exactly when the
language is in the community's read set, and otherwise fails exactly
with the `language_not_allowed` condition. -/
theorem is_allowed_iff_mem_read (db : DB) (l : LanguageId)
    (cid : CommunityId) :
    (CommunityLanguage.is_allowed_community_language db l cid = .ok () ↔
       l ∈ CommunityLanguage.read db cid) ∧
    (CommunityLanguage.is_allowed_community_language db l cid
        = .error (LemmyError.from_message "language_not_allowed") ↔
       l ∉ CommunityLanguage.read db cid) := by
  have hmem : (db.community_language.any
      (fun r => r.2 == l && r.1 == cid)) = true ↔
      l ∈ CommunityLanguage.read db cid := by
    unfold CommunityLanguage.read
    simp only [List.any_eq_true, List.mem_map, List.mem_filter,
      Bool.and_eq_true, beq_iff_eq]
    constructor
    · rintro ⟨r, hr, h2, h1⟩
      exact ⟨r, ⟨hr, by simp [h1]⟩, h2⟩
    · rintro ⟨r, ⟨hr, h1⟩, h2⟩
      exact ⟨r, hr, h2, by simpa using h1⟩
  unfold CommunityLanguage.is_allowed_community_language
  by_cases hany : (db.community_language.any
      (fun r => r.2 == l && r.1 == cid)) = true
  · rw [if_pos hany]
    have hin := hmem.mp hany
    constructor
    · simp [hin]
    · simp [hin]
  · rw [if_neg hany]
    have hout : l ∉ CommunityLanguage.read db cid := fun hm =>
      hany (hmem.mpr hm)
    constructor
    · simp [hout]
    · simp [hout, LemmyError.from_message]

/-- C6: a failed update is rolled back by the enclosing transaction,
leaving the entire store (hence every owner's read set, and every
community's rows) unchanged, for each of the three owner kinds. -/
theorem update_error_rollback (db : DB) (ids : List LanguageId) (o : Nat) :
    (∀ e, LocalUserLanguage.update db ids o = .error e →
       runTransaction db (LocalUserLanguage.update db ids o) = db) ∧
    (∀ e, SiteLanguage.update db ids o = .error e →
       runTransaction db (SiteLanguage.update db ids o) = db) ∧
    (∀ e, CommunityLanguage.update db ids o = .error e →
       runTransaction db (CommunityLanguage.update db ids o) = db) := by
  refine ⟨fun e h => ?_, fun e h => ?_, fun e h => ?_⟩ <;> rw [h] <;> rfl

/-- Witness for C6: updating user 9 of `dbW` with the unknown language 7
fails and leaves the store unchanged. -/
theorem update_error_rollback_witness :
    runTransaction dbW (LocalUserLanguage.update dbW [7] 9) = dbW :=
  (update_error_rollback dbW [7] 9).1 .foreignKeyViolation rfl

/-- C7 counterexample: on `dbW` the subset invariant holds and community
5 is local, yet `CommunityLanguage::update` succeeds in giving community
5 the language 3 which the site does not have. -/
theorem community_update_breaks_subset :
    CommunityLanguage.update dbW [3] 5 = .ok dbCommUpdW ∧
    subsetInv dbW 0 ∧ ¬ subsetInv dbCommUpdW 0 :=
  ⟨rfl, by decide, by decide⟩

/-- C7 amended: the subset invariant is established by
`SiteLanguage::update` and preserved by `LocalUserLanguage::update`, but
it is not preserved by `CommunityLanguage::update`, which writes the
requested set without any check against the site's languages. -/
theorem subset_invariant_amended (db : DB) (ids : List LanguageId)
    (sid : SiteId) (uid : LocalUserId) :
    (∀ db1, SiteLanguage.update db ids sid = .ok db1 → subsetInv db1 sid) ∧
    (∀ db1, LocalUserLanguage.update db ids uid = .ok db1 →
       subsetInv db sid → subsetInv db1 sid) := by
  constructor
  · exact fun db1 h => site_update_subsetInv_aux db db1 ids sid h
  · intro db1 h hinv
    rw [user_update_ok_eq db ids uid db1 h]
    exact hinv

/-- Witness for C7 (amended): a user update on `dbW` keeps the subset
invariant. -/
theorem subset_invariant_amended_witness : subsetInv dbUserEmptyW 0 :=
  (subset_invariant_amended dbW [] 0 9).2 dbUserEmptyW rfl (by decide)

/-- C8: `limit_languages` leaves every non-local community's association
set unchanged (given that no local community shares its id, which the
primary key of the community table guarantees). -/
theorem limit_languages_nonlocal_frame (db db1 : DB)
    (L : List LanguageId) (c : Community) (hc : c ∈ db.community)
    (hnl : c.isLocal = false)
    (hpk : ∀ c2 ∈ db.community, c2.isLocal = true → c2.id ≠ c.id)
    (h : CommunityLanguage.limit_languages db L = .ok db1) :
    CommunityLanguage.read db1 c.id = CommunityLanguage.read db c.id := by
  unfold CommunityLanguage.read
  rw [limit_comm_rows db db1 L h, filter_swap]
  have hcong : (db.community_language.filter
        (fun r => r.1 == c.id)).filter
        (fun r => (db.community.filter (fun c2 => c2.isLocal)).all
          (fun c2 => !(r.1 == c2.id && !(L.contains r.2))))
      = db.community_language.filter (fun r => r.1 == c.id) := by
    apply List.filter_eq_self.mpr
    intro r hr
    have hrc : (r.1 == c.id) = true := (List.mem_filter.mp hr).2
    have hr1 : r.1 = c.id := beq_iff_eq.mp hrc
    rw [List.all_eq_true]
    intro c2 hc2
    have hmem2 := List.mem_filter.mp hc2
    have hne : c2.id ≠ c.id := hpk c2 hmem2.1 (by simpa using hmem2.2)
    have hfalse : (r.1 == c2.id) = false := by
      rw [beq_eq_false_iff_ne, hr1]
      exact Ne.symm hne
    simp [hfalse]
  rw [hcong]

/-- Witness for C8: the non-local community 6 of `dbW` is untouched by a
cascade down to `[1]`. -/
theorem limit_languages_nonlocal_frame_witness :
    CommunityLanguage.read dbLimW 6 = CommunityLanguage.read dbW 6 :=
  limit_languages_nonlocal_frame dbW dbLimW [1] ⟨6, false⟩ (by decide) rfl
    (by decide) rfl

/-- C9 counterexample: on `dbN` (whose catalog is non-empty) the
completed site update to `[2]` leaves the local community 5 with an
empty association set. -/
theorem site_update_empties_community :
    SiteLanguage.update dbN [2] 0 = .ok dbNPost ∧
    dbN.languages ≠ [] ∧
    CommunityLanguage.read dbNPost 5 = [] :=
  ⟨rfl, by decide, rfl⟩

/-- C9 amended: after a completed update the updated owner's own set is
non-empty whenever the catalog is non-empty; a site update's cascade may
still leave a community's set empty. -/
theorem update_owner_nonempty (db : DB) (ids : List LanguageId) (o : Nat)
    (hcat : db.languages ≠ []) :
    (∀ db1, LocalUserLanguage.update db ids o = .ok db1 →
       LocalUserLanguage.read db1 o ≠ []) ∧
    (∀ db1, SiteLanguage.update db ids o = .ok db1 →
       SiteLanguage.read db1 o ≠ []) ∧
    (∀ db1, CommunityLanguage.update db ids o = .ok db1 →
       CommunityLanguage.read db1 o ≠ []) := by
  refine ⟨fun db1 h => ?_, fun db1 h => ?_, fun db1 h => ?_⟩
  · rw [user_update_ok_read db db1 ids o h]
    exact update_languages_ne_nil db ids hcat
  · rw [site_update_ok_read db db1 ids o h]
    exact update_languages_ne_nil db ids hcat
  · rw [community_update_ok_read db db1 ids o h]
    exact update_languages_ne_nil db ids hcat

/-- Witness for C9 (amended): user 9 of `dbW` reads back a non-empty set
after the empty update. -/
theorem update_owner_nonempty_witness :
    LocalUserLanguage.read dbUserEmptyW 9 ≠ [] :=
  (update_owner_nonempty dbW [] 9 (by decide)).1 dbUserEmptyW rfl

/-- C10: whenever `SiteView::read_local` returns `Ok`, the private key
of the returned site is `None`, whatever is stored for the site. -/
theorem read_local_clears_private_key (db : DB) (v : SiteView)
    (h : SiteView.read_local db = .ok v) : v.site.private_key = none := by
  unfold SiteView.read_local at h
  split at h
  next => exact Except.noConfusion h
  next s a heq =>
    injection h with h1
    rw [← h1]

/-- Witness for C10: on `dbW`, whose stored site has a private key, the
returned view has none. -/
theorem read_local_clears_private_key_witness :
    siteViewW.site.private_key = none :=
  read_local_clears_private_key dbW siteViewW rfl

end Lemmy
